import Mathlib

/-! Shallow embedding of `src/chatgpt-tree-view/src/libs/mapping/merged-message.js`
(the `MergedMessage` class: supernode construction from a raw conversation graph,
plus the tree-maintenance operations delete-with-promotion and assistant-message
merging), together with proofs about the embedded operations. -/

namespace MergedMessageModel

/-- Errors thrown by the source: `throw new Error(...)` sites (structural assertions
and the unrecognized-content-type failure) and the implicit JS `TypeError`s raised
by property access on `undefined`.  `fuelExhausted` is a marker used only by the
bounded model of the in-place recursive deletion loop; it is never produced when
the fuel bound is large enough. -/
inductive Err where
  | assertionError (msg : String)
  | unexpectedContentType (contentType : String)
  | typeError (msg : String)
  | fuelExhausted
deriving DecidableEq, Repr

/-- An entry of `content.parts` in a raw message: either a plain string or an
object carrying an `asset_pointer` field (the only two shapes the source reads). -/
inductive RawPart where
  | str (s : String)
  | obj (assetPointer : String)
deriving DecidableEq, Repr

/-- An entry of `metadata.attachments`: the source reads `attachment.id` and
`attachment.mime_type`. -/
structure Attachment where
  id : String
  mime_type : String
deriving DecidableEq, Repr

/-- The `content` field of a raw message: the source reads `content.content_type`,
`content.parts` and `content.text`.  `parts` and `text` are optional because the
source only accesses them on some content types (and would raise a `TypeError`
where it accesses a missing one without optional chaining). -/
structure Content where
  content_type : String
  parts : Option (List RawPart)
  text : Option String
deriving DecidableEq, Repr

/-- A raw conversation-graph node (`RawMessage` in the source's comments): an id,
an author role, optional `content`, optional `metadata.attachments`, optional
`metadata.aggregate_result.code`, the ordered `childrenIds` and the id-keyed
`children` mapping (embedded here as an association list, making the raw graph a
tree as the recursive construction assumes). -/
inductive RawNode where
  | mk (id : String) (authorRole : String)
      (content : Option Content)
      (attachments : Option (List Attachment))
      (aggregateCode : Option String)
      (childrenIds : List String)
      (children : List (String × RawNode))

def RawNode.id : RawNode → String
  | .mk i _ _ _ _ _ _ => i

def RawNode.authorRole : RawNode → String
  | .mk _ r _ _ _ _ _ => r

def RawNode.content : RawNode → Option Content
  | .mk _ _ c _ _ _ _ => c

def RawNode.attachments : RawNode → Option (List Attachment)
  | .mk _ _ _ a _ _ _ => a

def RawNode.aggregateCode : RawNode → Option String
  | .mk _ _ _ _ c _ _ => c

def RawNode.childrenIds : RawNode → List String
  | .mk _ _ _ _ _ ids _ => ids

def RawNode.children : RawNode → List (String × RawNode)
  | .mk _ _ _ _ _ _ ch => ch

/-- Modelled from the spec: `isUserMessage()` is a capability of raw messages whose
implementation is not under `src/`; the spec defines it as
`true iff author.role == "user"`. -/
def RawNode.isUserMessage (n : RawNode) : Bool :=
  n.authorRole == "user"

/-- JS object property read `children[childId]`: first matching key, if any. -/
def findChild : List (String × RawNode) → String → Option RawNode
  | [], _ => none
  | (k, v) :: rest, key => if k == key then some v else findChild rest key

theorem findChild_sizeOf {l : List (String × RawNode)} {k : String} {v : RawNode}
    (h : findChild l k = some v) : sizeOf v < sizeOf l := by
  induction l with
  | nil => simp [findChild] at h
  | cons p rest ih =>
    obtain ⟨a, b⟩ := p
    rw [findChild] at h
    by_cases hk : a == k
    · simp [hk] at h
      subst h
      simp
      omega
    · simp [hk] at h
      have := ih h
      simp
      omega

theorem RawNode.sizeOf_children_lt (n : RawNode) : sizeOf n.children < sizeOf n := by
  cases n with
  | mk i r c a g ids ch => simp [RawNode.children]

theorem RawNode.one_le_sizeOf (n : RawNode) : 1 ≤ sizeOf n := by
  cases n with
  | mk i r c a g ids ch => simp; omega

/-- `validateAndExtractLinkedList` of the source, as a walk from an optional
current child (`rawUserMessage.children[childId]` at entry).  Mirrors the loop:
while the current child exists and is not a user message, push it; stop on zero
children; throw the linearity assertion on two or more children; otherwise follow
the single child link. -/
def chainFromOpt : Option RawNode → Except Err (List RawNode)
  | none => .ok []
  | some c =>
    if c.isUserMessage then .ok []
    else
      match c.childrenIds with
      | [] => .ok [c]
      | [nextId] => (chainFromOpt (findChild c.children nextId)).map (fun l => c :: l)
      | _ => .error (.assertionError "Expected the assistant response branch to be linear")
termination_by o => sizeOf o
decreasing_by
  simp_wf
  rcases h : findChild c.children nextId with _ | v
  · simp
    have := RawNode.one_le_sizeOf c
    omega
  · simp
    have h1 := findChild_sizeOf h
    have h2 := RawNode.sizeOf_children_lt c
    omega

/-- The whole of `validateAndExtractLinkedList(rawUserMessage, childId)`. -/
def validateAndExtractLinkedList (rawUserMessage : RawNode) (childId : String) :
    Except Err (List RawNode) :=
  chainFromOpt (findChild rawUserMessage.children childId)

/-- JS `String.prototype.replace(pattern, replacement)` with a string pattern
replaces only the first occurrence; character-list worker. -/
def replaceFirstChars (pat repl : List Char) : List Char → List Char
  | [] => if pat.isPrefixOf ([] : List Char) then repl else []
  | c :: rest =>
    if pat.isPrefixOf (c :: rest) then repl ++ (c :: rest).drop pat.length
    else c :: replaceFirstChars pat repl rest

/-- JS `s.replace(pat, repl)` for string `pat`: first occurrence only. -/
def jsReplaceFirst (s pat repl : String) : String :=
  ⟨replaceFirstChars pat.data repl.data s.data⟩

/-- Character-list worker for JS `String.prototype.includes`. -/
def isSubstrChars (pat : List Char) : List Char → Bool
  | [] => pat.isEmpty
  | c :: rest => pat.isPrefixOf (c :: rest) || isSubstrChars pat rest

/-- JS `s.includes(pat)`: substring containment. -/
def strIncludes (s pat : String) : Bool :=
  isSubstrChars pat.data s.data

/-- Payload of a `ContentPart`: a plain string (text parts, attachment/asset ids),
or the two-element array `[code, outputText]` built for `execution_output` nodes
(the output component is optional because `content.text` may be absent). -/
inductive PartData where
  | str (s : String)
  | codePair (code : String) (output : Option String)
deriving DecidableEq, Repr

/-- Modelled from the spec: the `ContentPart` value object is imported from
`./util-models`, which is not under `src/`; per the spec it is a typed chunk with
a kind (`text | image | file | code`), a payload, and an optional mime type
(populated for attachment-derived parts only). -/
structure ContentPart where
  kind : String
  data : PartData
  mimeType : Option String
deriving DecidableEq, Repr

/-- One attachment entry mapped by `loadUserMessage`: kind `image` when the mime
type contains `"image"`, else `file`; payload is the attachment id; mime type is
carried along. -/
def mkAttachmentChunk (a : Attachment) : ContentPart :=
  ContentPart.mk (if strIncludes a.mime_type "image" then "image" else "file")
    (.str a.id) (some a.mime_type)

/-- The source's filter-for-strings followed by wrapping each string part as a
`text` chunk, fused into one `filterMap`. -/
def textChunkOfPart : RawPart → Option ContentPart
  | .str s => some (ContentPart.mk "text" (.str s) none)
  | .obj _ => none

/-- `loadUserMessage(rawUserMessage)`: optional-chained reads of `content.parts`
and `metadata.attachments` defaulting to `[]`, string parts become `text` chunks,
attachments are classified by mime type, and the attachment chunks are returned
in front of the text chunks. -/
def loadUserMessage (raw : RawNode) : List ContentPart :=
  let rawParts := (raw.content.bind Content.parts).getD []
  let rawAttachments := raw.attachments.getD []
  let contentFieldChunks := rawParts.filterMap textChunkOfPart
  let attachmentFieldChunks := rawAttachments.map mkAttachmentChunk
  attachmentFieldChunks ++ contentFieldChunks

/-- The part-to-chunk mapping inside the `text`/`multimodal_text` arm of
`buildSingleAssistantMessage`: strings become `text` chunks, objects become
`image` chunks with `"file-service://"` stripped from the asset pointer. -/
def partToChunk : RawPart → ContentPart
  | .str s => ContentPart.mk "text" (.str s) none
  | .obj ap => ContentPart.mk "image" (.str (jsReplaceFirst ap "file-service://" "")) none

/-- The per-node dispatch of `buildSingleAssistantMessage` on
`rawMessage.content.content_type`.  A missing `content` (or missing `parts` in the
text arms) is the JS `TypeError` raised by the unguarded property access. -/
def chunksOfRawMessage (m : RawNode) : Except Err (List ContentPart) :=
  match m.content with
  | none => .error (.typeError "cannot read content_type of undefined content")
  | some content =>
    if content.content_type == "text" || content.content_type == "multimodal_text" then
      match content.parts with
      | none => .error (.typeError "cannot iterate undefined parts")
      | some parts => .ok (parts.map partToChunk)
    else if content.content_type == "execution_output" then
      .ok [ContentPart.mk "code" (.codePair (m.aggregateCode.getD "") content.text) none]
    else
      .error (.unexpectedContentType content.content_type)

/-- `buildSingleAssistantMessage(rawMessages)`: chunks of every collected node in
order; a throw for one node discards the whole branch. -/
def buildSingleAssistantMessage : List RawNode → Except Err (List ContentPart)
  | [] => .ok []
  | m :: rest => do
    let cs ← chunksOfRawMessage m
    let csRest ← buildSingleAssistantMessage rest
    .ok (cs ++ csRest)

/-- The `childrenIds.map(...)` loop of the constructor's second phase: for each
outgoing child id, extract the chain, record its last element (JS
`rawMessages[rawMessages.length - 1]`, which is `undefined` for an empty chain),
and convert the chain into one assistant branch.  A throw anywhere aborts the
whole loop. -/
def mapBranches (raw : RawNode) : List String →
    Except Err (List (List ContentPart) × List (Option RawNode))
  | [] => .ok ([], [])
  | childId :: rest => do
    let rawMessages ← chainFromOpt (findChild raw.children childId)
    let branch ← buildSingleAssistantMessage rawMessages
    let (branches, leaves) ← mapBranches raw rest
    .ok (branch :: branches, rawMessages.getLast? :: leaves)

/-- `leafChildrenIds.map((childId) => leafMessage.children[childId])`: a missing
entry yields `undefined`. -/
def leafChildrenOf (leaf : RawNode) : List (Option RawNode) :=
  leaf.childrenIds.map (findChild leaf.children)

/-- The inner `leafChildren.forEach` of the constructor: each leaf child must be
a user message and then becomes the root of a recursive construction; the first
failure stops the loop, keeping the children already pushed.  This returns the
raw user nodes to construct (in push order) paired with the error, if any. -/
def childrenOfOneLeaf : List (Option RawNode) → List RawNode × Option Err
  | [] => ([], none)
  | none :: _ => ([], some (.typeError "cannot call isUserMessage of undefined"))
  | some c :: rest =>
    if c.isUserMessage then
      let (l, e) := childrenOfOneLeaf rest
      (c :: l, e)
    else
      ([], some (.assertionError "Expected leaf children to be user messages"))

/-- The outer `leafMessages.forEach` of the constructor: an `undefined` leaf (an
empty chain) raises the JS `TypeError` on `leafMessage.childrenIds`; otherwise the
leaf's children are processed and the loop continues with the next leaf. -/
def collectLeafChildren : List (Option RawNode) → List RawNode × Option Err
  | [] => ([], none)
  | none :: _ => ([], some (.typeError "cannot read childrenIds of undefined"))
  | some leaf :: rest =>
    match childrenOfOneLeaf (leafChildrenOf leaf) with
    | (l, some e) => (l, some e)
    | (l, none) =>
      let (l', e) := collectLeafChildren rest
      (l ++ l', e)

theorem except_bind_eq_ok {α β : Type} {x : Except Err α} {f : α → Except Err β} {b : β} :
    (x >>= f) = .ok b ↔ ∃ a, x = .ok a ∧ f a = .ok b := by
  cases x with
  | error e => simp [Bind.bind, Except.bind]
  | ok a => simp [Bind.bind, Except.bind]

theorem except_map_eq_ok {α β : Type} {x : Except Err α} {g : α → β} {b : β} :
    (Except.map g x) = .ok b ↔ ∃ a, x = .ok a ∧ g a = b := by
  cases x with
  | error e => simp [Except.map]
  | ok a => simp [Except.map, eq_comm]

theorem chainFromOpt_mem_sizeOf (o : Option RawNode) :
    ∀ l m, chainFromOpt o = .ok l → m ∈ l → sizeOf m < sizeOf o := by
  induction o using chainFromOpt.induct with
  | case1 =>
    intro l m h hm
    simp [chainFromOpt] at h
    subst h
    simp at hm
  | case2 c hc =>
    intro l m h hm
    simp [chainFromOpt, hc] at h
    subst h
    simp at hm
  | case3 c hc hids =>
    intro l m h hm
    simp [chainFromOpt, hc, hids] at h
    subst h
    simp at hm
    subst hm
    simp
  | case4 c hc nextId hids ih =>
    intro l m h hm
    simp [chainFromOpt, hc, hids, except_map_eq_ok] at h
    obtain ⟨l', hl', rfl⟩ := h
    rcases List.mem_cons.mp hm with rfl | hm'
    · simp
    · have h1 := ih l' m hl' hm'
      rcases hf : findChild c.children nextId with _ | v
      · rw [hf] at hl'
        simp [chainFromOpt] at hl'
        subst hl'
        simp at hm'
      · rw [hf] at h1
        have h2 := findChild_sizeOf hf
        have h3 := RawNode.sizeOf_children_lt c
        simp at h1 ⊢
        omega
  | case5 c hc h0 h1 =>
    intro l m h hm
    have : c.childrenIds = [] ∨ (∃ x, c.childrenIds = [x]) ∨
        (∃ x y zs, c.childrenIds = x :: y :: zs) := by
      rcases c.childrenIds with _ | ⟨x, _ | ⟨y, zs⟩⟩
      · exact Or.inl rfl
      · exact Or.inr (Or.inl ⟨_, rfl⟩)
      · exact Or.inr (Or.inr ⟨_, _, _, rfl⟩)
    rcases this with h2 | ⟨x, h2⟩ | ⟨x, y, zs, h2⟩
    · exact absurd h2 (by intro hh; exact h0 hh)
    · exact absurd h2 (by intro hh; exact h1 x hh)
    · simp [chainFromOpt, hc, h2] at h

theorem leafChild_sizeOf {leaf c : RawNode} (h : some c ∈ leafChildrenOf leaf) :
    sizeOf c < sizeOf leaf := by
  simp [leafChildrenOf] at h
  obtain ⟨cid, _, hfind⟩ := h
  have h1 := findChild_sizeOf hfind
  have h2 := RawNode.sizeOf_children_lt leaf
  omega

theorem childrenOfOneLeaf_sizeOf {B : Nat} :
    ∀ (cs : List (Option RawNode)) (kids : List RawNode) (e : Option Err),
    childrenOfOneLeaf cs = (kids, e) → (∀ c, some c ∈ cs → sizeOf c < B) →
    ∀ k ∈ kids, sizeOf k < B := by
  intro cs
  induction cs with
  | nil =>
    intro kids e h hcs k hk
    simp [childrenOfOneLeaf] at h
    obtain ⟨rfl, rfl⟩ := h
    simp at hk
  | cons c rest ih =>
    intro kids e h hcs k hk
    rcases c with _ | c
    · simp [childrenOfOneLeaf] at h
      obtain ⟨rfl, rfl⟩ := h
      simp at hk
    · rw [childrenOfOneLeaf] at h
      by_cases hu : c.isUserMessage
      · rw [if_pos hu] at h
        rcases hrec : childrenOfOneLeaf rest with ⟨l, e'⟩
        rw [hrec] at h
        simp at h
        obtain ⟨rfl, rfl⟩ := h
        rcases List.mem_cons.mp hk with rfl | hk'
        · exact hcs k (by simp)
        · exact ih l e' hrec (fun c' hc' => hcs c' (by simp [hc'])) k hk'
      · rw [if_neg hu] at h
        simp at h
        obtain ⟨rfl, rfl⟩ := h
        simp at hk

theorem collectLeafChildren_sizeOf {B : Nat} :
    ∀ (ls : List (Option RawNode)) (kids : List RawNode) (e : Option Err),
    collectLeafChildren ls = (kids, e) → (∀ leaf, some leaf ∈ ls → sizeOf leaf < B) →
    ∀ k ∈ kids, sizeOf k < B := by
  intro ls
  induction ls with
  | nil =>
    intro kids e h hls k hk
    simp [collectLeafChildren] at h
    obtain ⟨rfl, rfl⟩ := h
    simp at hk
  | cons o rest ih =>
    intro kids e h hls k hk
    rcases o with _ | leaf
    · simp [collectLeafChildren] at h
      obtain ⟨rfl, rfl⟩ := h
      simp at hk
    · rw [collectLeafChildren] at h
      have hleaf : sizeOf leaf < B := hls leaf (by simp)
      have hone : ∀ c, some c ∈ leafChildrenOf leaf → sizeOf c < B :=
        fun c hc => lt_trans (leafChild_sizeOf hc) hleaf
      rcases h1 : childrenOfOneLeaf (leafChildrenOf leaf) with ⟨l, e1⟩
      rw [h1] at h
      rcases e1 with _ | e1
      · rcases h2 : collectLeafChildren rest with ⟨l', e'⟩
        rw [h2] at h
        simp at h
        obtain ⟨rfl, rfl⟩ := h
        rcases List.mem_append.mp hk with hk' | hk'
        · exact childrenOfOneLeaf_sizeOf (leafChildrenOf leaf) l none h1 hone k hk'
        · exact ih l' e' h2 (fun lf hlf => hls lf (by simp [hlf])) k hk'
      · simp at h
        obtain ⟨rfl, rfl⟩ := h
        exact childrenOfOneLeaf_sizeOf (leafChildrenOf leaf) l (some e1) h1 hone k hk

theorem mapBranches_leaves_sizeOf (raw : RawNode) :
    ∀ (ids : List String) (branches : List (List ContentPart))
      (leaves : List (Option RawNode)),
    mapBranches raw ids = .ok (branches, leaves) →
    ∀ leaf, some leaf ∈ leaves → sizeOf leaf < sizeOf raw := by
  intro ids
  induction ids with
  | nil =>
    intro branches leaves h leaf hm
    simp [mapBranches] at h
    obtain ⟨_, rfl⟩ := h
    simp at hm
  | cons cid rest ih =>
    intro branches leaves h leaf hm
    rw [mapBranches] at h
    rw [except_bind_eq_ok] at h
    obtain ⟨chain, hchain, h⟩ := h
    rw [except_bind_eq_ok] at h
    obtain ⟨branch, _, h⟩ := h
    rw [except_bind_eq_ok] at h
    obtain ⟨⟨bs, ls⟩, hrest, h⟩ := h
    simp at h
    obtain ⟨_, rfl⟩ := h
    rcases List.mem_cons.mp hm with hhead | htail
    · have hmem : leaf ∈ chain := by
        have : leaf ∈ chain.getLast? := by rw [← hhead]; rfl
        obtain ⟨hne, heq⟩ := List.mem_getLast?_eq_getLast this
        rw [heq]
        exact List.getLast_mem hne
      have h1 := chainFromOpt_mem_sizeOf _ chain leaf hchain hmem
      rcases hf : findChild raw.children cid with _ | v
      · rw [hf] at hchain
        simp [chainFromOpt] at hchain
        subst hchain
        simp at hmem
      · rw [hf] at h1
        have h2 := findChild_sizeOf hf
        have h3 := RawNode.sizeOf_children_lt raw
        simp at h1
        omega
    · exact ih bs ls hrest leaf htail

/-- A constructed supernode (`MergedMessage` instance).  `assistantBranches` and
`children` are `none` when the corresponding JS field was never assigned because
the second constructor phase threw before the assignment; `childrenIds` is always
`none` because the constructor never assigns that field at all; `loggedError`
records what the constructor's `catch` blocks passed to the external `logError`
sink (`none` when construction succeeded). -/
inductive MergedMessage where
  | mk (id : String)
      (userMessageChunks : List ContentPart)
      (assistantBranches : Option (List (List ContentPart)))
      (children : Option (List MergedMessage))
      (childrenIds : Option (List String))
      (loggedError : Option Err)

def MergedMessage.id : MergedMessage → String
  | .mk i _ _ _ _ _ => i

def MergedMessage.userMessageChunks : MergedMessage → List ContentPart
  | .mk _ u _ _ _ _ => u

def MergedMessage.assistantBranches : MergedMessage → Option (List (List ContentPart))
  | .mk _ _ b _ _ _ => b

def MergedMessage.children : MergedMessage → Option (List MergedMessage)
  | .mk _ _ _ c _ _ => c

def MergedMessage.childrenIds : MergedMessage → Option (List String)
  | .mk _ _ _ _ ids _ => ids

def MergedMessage.loggedError : MergedMessage → Option Err
  | .mk _ _ _ _ _ e => e

/-- The `MergedMessage` constructor.  Phase one (`loadUserMessage`) always
succeeds in this model (the reads it performs are total on the embedded record).
Phase two is the single `try` block around branch mapping, leaf aggregation and
recursive construction: a throw during branch mapping leaves `assistantBranches`
and `children` unassigned; a throw during aggregation keeps the branches and the
children already pushed; either way the error is logged, never propagated. -/
def build (raw : RawNode) : MergedMessage :=
  match h : mapBranches raw raw.childrenIds with
  | .error e => .mk raw.id (loadUserMessage raw) none none none (some e)
  | .ok (branches, leaves) =>
    .mk raw.id (loadUserMessage raw) (some branches)
      (some ((collectLeafChildren leaves).1.attach.map (fun k => build k.1)))
      none
      (collectLeafChildren leaves).2
termination_by sizeOf raw
decreasing_by
  simp_wf
  have hleaf : ∀ leaf, some leaf ∈ leaves → sizeOf leaf < sizeOf raw :=
    fun leaf hm => mapBranches_leaves_sizeOf raw raw.childrenIds _ _ h leaf hm
  exact collectLeafChildren_sizeOf leaves _ _ rfl hleaf k.1 k.2

theorem build_eq_error {raw : RawNode} {e : Err}
    (h : mapBranches raw raw.childrenIds = .error e) :
    build raw = .mk raw.id (loadUserMessage raw) none none none (some e) := by
  rw [build]
  split
  · rename_i e' h'
    rw [h] at h'
    injection h' with h'
    rw [h']
  · rename_i p h'
    rw [h] at h'
    exact absurd h' (by simp)

theorem build_eq_ok {raw : RawNode} {branches : List (List ContentPart)}
    {leaves : List (Option RawNode)}
    (h : mapBranches raw raw.childrenIds = .ok (branches, leaves)) :
    build raw = .mk raw.id (loadUserMessage raw) (some branches)
      (some ((collectLeafChildren leaves).1.map build)) none
      (collectLeafChildren leaves).2 := by
  rw [build]
  split
  · rename_i e' h'
    rw [h] at h'
    exact absurd h' (by simp)
  · rename_i bs ls h'
    rw [h] at h'
    injection h' with h'
    injection h' with h1 h2
    subst h1
    subst h2
    rw [List.attach_map_coe]

/-- The supernode shape assumed by the tree-maintenance methods
(`deleteChildMessageById`, `mergeSubsequentAssistantMessages`): an ordered
`childrenIds` sequence paired with an id-keyed `children` mapping (association
list), plus the author/recipient/content/metadata fields those methods read.
The constructor does not produce this shape (see the construction model above). -/
inductive Supernode where
  | mk (id : String) (authorRole : String) (authorName : Option String)
      (recipient : Option String) (contentParts : List RawPart) (meta : String)
      (childrenIds : List String) (children : List (String × Supernode))

def Supernode.id : Supernode → String
  | .mk i _ _ _ _ _ _ _ => i

def Supernode.authorRole : Supernode → String
  | .mk _ r _ _ _ _ _ _ => r

def Supernode.authorName : Supernode → Option String
  | .mk _ _ n _ _ _ _ _ => n

def Supernode.recipient : Supernode → Option String
  | .mk _ _ _ r _ _ _ _ => r

def Supernode.contentParts : Supernode → List RawPart
  | .mk _ _ _ _ p _ _ _ => p

def Supernode.meta : Supernode → String
  | .mk _ _ _ _ _ m _ _ => m

def Supernode.childrenIds : Supernode → List String
  | .mk _ _ _ _ _ _ ids _ => ids

def Supernode.children : Supernode → List (String × Supernode)
  | .mk _ _ _ _ _ _ _ ch => ch

/-- Rebuild a supernode with new `childrenIds` and `children`, keeping every
other field (the in-place field assignments of the JS methods). -/
def Supernode.withKids (n : Supernode) (ids : List String)
    (ch : List (String × Supernode)) : Supernode :=
  match n with
  | .mk i r nm rc p m _ _ => .mk i r nm rc p m ids ch

/-- Rebuild a supernode after the Dall-E merge's field assignments:
`content.parts` extended, author (role and name) and `meta` inherited. -/
def Supernode.withMerged (n : Supernode) (parts : List RawPart) (role : String)
    (name : Option String) (meta' : String) : Supernode :=
  match n with
  | .mk i _ _ rc _ _ ids ch => .mk i role name rc parts meta' ids ch

/-- JS object property read `children[id]` on a supernode's children mapping. -/
def findChildS : List (String × Supernode) → String → Option Supernode
  | [], _ => none
  | (k, v) :: rest, key => if k == key then some v else findChildS rest key

/-- JS object property assignment `children[k] = v`: overwrite the existing key
or add it. -/
def setChild : List (String × Supernode) → String → Supernode → List (String × Supernode)
  | [], k, v => [(k, v)]
  | (k', v') :: rest, k, v =>
    if k' == k then (k, v) :: rest else (k', v') :: setChild rest k v

/-- `children[k] = maybeV` where the right-hand side may be `undefined` (a missing
entry of the source mapping).  Assigning `undefined` is modelled as removing the
key: every read the source performs treats a key holding `undefined` and an
absent key identically. -/
def setChildOpt (m : List (String × Supernode)) (k : String) :
    Option Supernode → List (String × Supernode)
  | some v => setChild m k v
  | none => m.filter (fun p => p.1 != k)

/-- JS `delete children[id]`. -/
def deleteKey (m : List (String × Supernode)) (k : String) : List (String × Supernode) :=
  m.filter (fun p => p.1 != k)

/-- The base case of `deleteChildMessageById` (the target id is listed in
`childrenIds`): promote each of the target's children in `childrenIds` order
(push the id, copy the entry), then filter the target id out of `childrenIds`
and delete its entry.  A direct child listed in `childrenIds` without an entry
in `children` is the JS `TypeError` on `child.childrenIds`. -/
def deleteDirectChild (n : Supernode) (id : String) : Except Err Supernode :=
  match findChildS n.children id with
  | none => .error (.typeError "cannot read childrenIds of undefined")
  | some child =>
    let promotedIds := n.childrenIds ++ child.childrenIds
    let promotedChildren := child.childrenIds.foldl
      (fun m cid => setChildOpt m cid (findChildS child.children cid)) n.children
    .ok (n.withKids (promotedIds.filter (fun cid => cid != id))
      (deleteKey promotedChildren id))

/-- `deleteChildMessageById(id, recurse)`, fuelled.  If the target is a direct
child, the base case applies regardless of `recurse`; otherwise, when `recurse`
is set, the deletion is retried on every direct child in `childrenIds` order, in
place (a missing entry is the JS `TypeError` on calling a method of
`undefined`).  The fuel bounds the depth of this recursion: the JS original
recurses on the live tree and terminates on any finite tree; fuel below the
tree depth yields the model-only `fuelExhausted` error. -/
def deleteChildMessageByIdFuel : Nat → Supernode → String → Bool → Except Err Supernode
  | 0, n, id, recurse =>
    if id ∈ n.childrenIds then deleteDirectChild n id
    else if recurse then .error .fuelExhausted
    else .ok n
  | f + 1, n, id, recurse =>
    if id ∈ n.childrenIds then deleteDirectChild n id
    else if recurse then
      (n.childrenIds.foldlM
        (fun m cid =>
          (match findChildS m cid with
          | none => .error (.typeError "cannot call deleteChildMessageById of undefined")
          | some c => do
            let c' ← deleteChildMessageByIdFuel f c id true
            pure (setChild m cid c') : Except Err (List (String × Supernode))))
        n.children).map
        (fun m => n.withKids n.childrenIds m)
    else .ok n

mutual

/-- Node count of a supernode tree, used as the fuel bound for the recursive
deletion (it dominates the tree depth). -/
def Supernode.sizeS : Supernode → Nat
  | .mk _ _ _ _ _ _ _ ch => 1 + sizeSList ch

def sizeSList : List (String × Supernode) → Nat
  | [] => 0
  | p :: rest => Supernode.sizeS p.2 + sizeSList rest

end

/-- `deleteChildMessageById(id, recurse)`: the fuelled model at a fuel bound that
dominates the depth of any finite tree. -/
def deleteChildMessageById (n : Supernode) (id : String) (recurse : Bool) :
    Except Err Supernode :=
  deleteChildMessageByIdFuel n.sizeS n id recurse

/-- `mergeSubsequentAssistantMessages()`.  Dall-E case: tool author named
`dalle.text2im`, exactly one child, which must be assistant-authored; append the
child's content parts, inherit its author and meta, then delete it with
`recurse = false`.  Code-block case (`assistant` author addressed to `python`):
the child-count assertion, then a body left unimplemented in the source (no
mutation).  Any other entry throws the unexpected-entry assertion. -/
def mergeSubsequentAssistantMessages (n : Supernode) : Except Err Supernode :=
  if n.authorRole == "tool" && n.authorName == some "dalle.text2im" then
    if n.childrenIds.length != 1 then
      .error (.assertionError "Expected the dalle message only has one child")
    else
      match n.childrenIds with
      | [] => .error (.assertionError "Expected the dalle message only has one child")
      | childId :: _ =>
        match findChildS n.children childId with
        | none => .error (.typeError "cannot read author of undefined")
        | some assistantMessage =>
          if assistantMessage.authorRole != "assistant" then
            .error (.assertionError
              "Expected the child of the Dall-E message to be an Assistant message")
          else
            deleteChildMessageById
              (n.withMerged (n.contentParts ++ assistantMessage.contentParts)
                assistantMessage.authorRole assistantMessage.authorName
                assistantMessage.meta)
              childId false
  else if n.authorRole == "assistant" && n.recipient == some "python" then
    if n.childrenIds.length != 1 then
      .error (.assertionError
        "Expected the child of the code block message to only have one child")
    else
      .ok n
  else
    .error (.assertionError "Unexpected entry message for Assistant Message Merging")

theorem Supernode.withKids_childrenIds (n : Supernode) (ids : List String)
    (ch : List (String × Supernode)) : (n.withKids ids ch).childrenIds = ids := by
  cases n; rfl

theorem Supernode.withKids_children (n : Supernode) (ids : List String)
    (ch : List (String × Supernode)) : (n.withKids ids ch).children = ch := by
  cases n; rfl

theorem Supernode.withKids_contentParts (n : Supernode) (ids : List String)
    (ch : List (String × Supernode)) : (n.withKids ids ch).contentParts = n.contentParts := by
  cases n; rfl

theorem Supernode.withKids_authorRole (n : Supernode) (ids : List String)
    (ch : List (String × Supernode)) : (n.withKids ids ch).authorRole = n.authorRole := by
  cases n; rfl

theorem Supernode.withKids_authorName (n : Supernode) (ids : List String)
    (ch : List (String × Supernode)) : (n.withKids ids ch).authorName = n.authorName := by
  cases n; rfl

theorem Supernode.withKids_meta (n : Supernode) (ids : List String)
    (ch : List (String × Supernode)) : (n.withKids ids ch).meta = n.meta := by
  cases n; rfl

theorem Supernode.withMerged_contentParts (n : Supernode) (parts : List RawPart)
    (role : String) (name : Option String) (meta' : String) :
    (n.withMerged parts role name meta').contentParts = parts := by
  cases n; rfl

theorem Supernode.withMerged_authorRole (n : Supernode) (parts : List RawPart)
    (role : String) (name : Option String) (meta' : String) :
    (n.withMerged parts role name meta').authorRole = role := by
  cases n; rfl

theorem Supernode.withMerged_authorName (n : Supernode) (parts : List RawPart)
    (role : String) (name : Option String) (meta' : String) :
    (n.withMerged parts role name meta').authorName = name := by
  cases n; rfl

theorem Supernode.withMerged_meta (n : Supernode) (parts : List RawPart)
    (role : String) (name : Option String) (meta' : String) :
    (n.withMerged parts role name meta').meta = meta' := by
  cases n; rfl

theorem Supernode.withMerged_childrenIds (n : Supernode) (parts : List RawPart)
    (role : String) (name : Option String) (meta' : String) :
    (n.withMerged parts role name meta').childrenIds = n.childrenIds := by
  cases n; rfl

theorem Supernode.withMerged_children (n : Supernode) (parts : List RawPart)
    (role : String) (name : Option String) (meta' : String) :
    (n.withMerged parts role name meta').children = n.children := by
  cases n; rfl

theorem findChildS_filter_self (m : List (String × Supernode)) (k : String) :
    findChildS (m.filter (fun p => p.1 != k)) k = none := by
  induction m with
  | nil => rfl
  | cons p rest ih =>
    obtain ⟨a, b⟩ := p
    by_cases h : a = k
    · simp [h, ih]
    · simp [List.filter_cons, h, findChildS, ih]

theorem findChildS_filter_ne {k' k : String} (m : List (String × Supernode))
    (h : k' ≠ k) :
    findChildS (m.filter (fun p => p.1 != k)) k' = findChildS m k' := by
  induction m with
  | nil => rfl
  | cons p rest ih =>
    obtain ⟨a, b⟩ := p
    by_cases ha : a = k
    · subst ha
      have : (a == k') = false := by simp; exact fun hh => h hh.symm
      simp [findChildS, this, ih]
    · simp [List.filter_cons, ha, findChildS, ih]

theorem findChildS_setChild_self (m : List (String × Supernode)) (k : String)
    (v : Supernode) : findChildS (setChild m k v) k = some v := by
  induction m with
  | nil => simp [setChild, findChildS]
  | cons p rest ih =>
    obtain ⟨a, b⟩ := p
    by_cases h : a = k
    · simp [setChild, h, findChildS]
    · simp [setChild, h, findChildS, ih]

theorem findChildS_setChild_ne {k' k : String} (m : List (String × Supernode))
    (v : Supernode) (h : k' ≠ k) :
    findChildS (setChild m k v) k' = findChildS m k' := by
  induction m with
  | nil =>
    have : (k == k') = false := by simp; exact fun hh => h hh.symm
    simp [setChild, findChildS, this]
  | cons p rest ih =>
    obtain ⟨a, b⟩ := p
    by_cases ha : a = k
    · subst ha
      have h1 : (a == k') = false := by simp; exact fun hh => h hh.symm
      simp [setChild, findChildS, h1]
    · simp [setChild, ha, findChildS, ih]

theorem findChildS_setChildOpt_self (m : List (String × Supernode)) (k : String)
    (o : Option Supernode) : findChildS (setChildOpt m k o) k = o := by
  cases o with
  | none => exact findChildS_filter_self m k
  | some v => exact findChildS_setChild_self m k v

theorem findChildS_setChildOpt_ne {k' k : String} (m : List (String × Supernode))
    (o : Option Supernode) (h : k' ≠ k) :
    findChildS (setChildOpt m k o) k' = findChildS m k' := by
  cases o with
  | none => exact findChildS_filter_ne m h
  | some v => exact findChildS_setChild_ne m v h

theorem findChildS_promote_notmem (ch : List (String × Supernode)) :
    ∀ (cids : List String) (m : List (String × Supernode)) (y : String), y ∉ cids →
    findChildS (cids.foldl (fun m cid => setChildOpt m cid (findChildS ch cid)) m) y =
      findChildS m y := by
  intro cids
  induction cids with
  | nil => intro m y _; rfl
  | cons cid rest ih =>
    intro m y hy
    rw [List.foldl_cons]
    have h1 : y ∉ rest := fun hh => hy (by simp [hh])
    have h2 : y ≠ cid := fun hh => hy (by simp [hh])
    rw [ih _ y h1, findChildS_setChildOpt_ne _ _ h2]

theorem findChildS_promote_mem (ch : List (String × Supernode)) :
    ∀ (cids : List String) (m : List (String × Supernode)) (y : String), y ∈ cids →
    findChildS (cids.foldl (fun m cid => setChildOpt m cid (findChildS ch cid)) m) y =
      findChildS ch y := by
  intro cids
  induction cids with
  | nil => intro m y hy; simp at hy
  | cons cid rest ih =>
    intro m y hy
    rw [List.foldl_cons]
    by_cases hmem : y ∈ rest
    · exact ih _ y hmem
    · have hcid : y = cid := by
        rcases List.mem_cons.mp hy with h | h
        · exact h
        · exact absurd h hmem
      subst hcid
      rw [findChildS_promote_notmem ch rest _ y hmem, findChildS_setChildOpt_self]

/-- Unfolding of `deleteChildMessageById` when the target is a direct child with
a present entry: the base case of the source, independent of `recurse`. -/
theorem deleteChildMessageById_direct {n : Supernode} {X : String} (r : Bool)
    {c : Supernode} (hmem : X ∈ n.childrenIds)
    (hfind : findChildS n.children X = some c) :
    deleteChildMessageById n X r = .ok (n.withKids
      ((n.childrenIds ++ c.childrenIds).filter (fun cid => cid != X))
      (deleteKey
        (c.childrenIds.foldl
          (fun m cid => setChildOpt m cid (findChildS c.children cid)) n.children)
        X)) := by
  have hbase : ∀ fuel, deleteChildMessageByIdFuel fuel n X r = deleteDirectChild n X := by
    intro fuel
    cases fuel with
    | zero => simp [deleteChildMessageByIdFuel, hmem]
    | succ f => simp [deleteChildMessageByIdFuel, hmem]
  rw [deleteChildMessageById, hbase, deleteDirectChild, hfind]

/-- The walk described by the spec for chain extraction: starting from the
(possibly missing) node a child id resolves to, follow single-child links while
the current node exists and is not a human turn, collecting every visited node in
visit order; stop on a missing node, on the next human turn (excluded from the
collection), or on a node with zero children (included). -/
inductive WalkResult : Option RawNode → List RawNode → Prop where
  | stopMissing : WalkResult none []
  | stopHuman {c : RawNode} (h : c.isUserMessage = true) : WalkResult (some c) []
  | stopLeaf {c : RawNode} (h : c.isUserMessage = false) (h0 : c.childrenIds = []) :
      WalkResult (some c) [c]
  | step {c : RawNode} {nextId : String} {l : List RawNode}
      (h : c.isUserMessage = false) (h1 : c.childrenIds = [nextId])
      (hrec : WalkResult (findChild c.children nextId) l) :
      WalkResult (some c) (c :: l)

/-- The spec's error condition for chain extraction: some visited non-human node
has two or more children (reachable along single-child links from the start). -/
inductive WalkError : Option RawNode → Prop where
  | here {c : RawNode} (h : c.isUserMessage = false) (h2 : 2 ≤ c.childrenIds.length) :
      WalkError (some c)
  | there {c : RawNode} {nextId : String}
      (h : c.isUserMessage = false) (h1 : c.childrenIds = [nextId])
      (hrec : WalkError (findChild c.children nextId)) :
      WalkError (some c)

theorem chainFromOpt_ok_of_walk {o : Option RawNode} {l : List RawNode}
    (h : WalkResult o l) : chainFromOpt o = .ok l := by
  induction h with
  | stopMissing => simp [chainFromOpt]
  | stopHuman hu => simp [chainFromOpt, hu]
  | stopLeaf hu h0 => simp [chainFromOpt, hu, h0]
  | step hu h1 hrec ih => simp [chainFromOpt, hu, h1, ih, Except.map]

theorem walk_of_chainFromOpt_ok (o : Option RawNode) :
    ∀ l, chainFromOpt o = .ok l → WalkResult o l := by
  induction o using chainFromOpt.induct with
  | case1 =>
    intro l h
    simp [chainFromOpt] at h
    subst h
    exact .stopMissing
  | case2 c hc =>
    intro l h
    simp [chainFromOpt, hc] at h
    subst h
    exact .stopHuman hc
  | case3 c hc hids =>
    intro l h
    simp [chainFromOpt, hc, hids] at h
    subst h
    exact .stopLeaf (by simpa using hc) hids
  | case4 c hc nextId hids ih =>
    intro l h
    simp [chainFromOpt, hc, hids, except_map_eq_ok] at h
    obtain ⟨l', hl', rfl⟩ := h
    exact .step (by simpa using hc) hids (ih l' hl')
  | case5 c hc h0 h1 =>
    intro l h
    rcases hids : c.childrenIds with _ | ⟨x, _ | ⟨y, zs⟩⟩
    · exact absurd hids h0
    · exact absurd hids (h1 x)
    · simp [chainFromOpt, hc, hids] at h

theorem chainFromOpt_error_of_walkError {o : Option RawNode} (h : WalkError o) :
    chainFromOpt o =
      .error (.assertionError "Expected the assistant response branch to be linear") := by
  induction h with
  | here hu h2 =>
    rename_i c
    rcases hids : c.childrenIds with _ | ⟨x, _ | ⟨y, zs⟩⟩
    · rw [hids] at h2; simp at h2
    · rw [hids] at h2; simp at h2
    · simp [chainFromOpt, hu, hids]
  | there hu h1 hrec ih => simp [chainFromOpt, hu, h1, ih, Except.map]

theorem walkError_of_chainFromOpt_error (o : Option RawNode) :
    ∀ e, chainFromOpt o = .error e → WalkError o := by
  induction o using chainFromOpt.induct with
  | case1 => intro e h; simp [chainFromOpt] at h
  | case2 c hc => intro e h; simp [chainFromOpt, hc] at h
  | case3 c hc hids => intro e h; simp [chainFromOpt, hc, hids] at h
  | case4 c hc nextId hids ih =>
    intro e h
    simp [chainFromOpt, hc, hids] at h
    rcases hx : chainFromOpt (findChild c.children nextId) with eInner | l'
    · exact .there (by simpa using hc) hids (ih eInner hx)
    · rw [hx] at h
      simp [Except.map] at h
  | case5 c hc h0 h1 =>
    intro e h
    rcases hids : c.childrenIds with _ | ⟨x, _ | ⟨y, zs⟩⟩
    · exact absurd hids h0
    · exact absurd hids (h1 x)
    · exact .here (by simpa using hc) (by rw [hids]; simp)

/-- C5: for every walk starting from an outgoing child of a human turn, chain
extraction returns exactly the non-human nodes visited by following single-child
links, in visit order, excluding the terminating human turn; it stops at a node
with zero children or at the next human turn; and it raises the
structural-assertion (linearity) error exactly when a visited non-human node has
more than one child. -/
theorem claim_C5_chain_extraction_characterization
    (rawUserMessage : RawNode) (childId : String) :
    (∀ l, validateAndExtractLinkedList rawUserMessage childId = .ok l ↔
      WalkResult (findChild rawUserMessage.children childId) l) ∧
    (∀ e, validateAndExtractLinkedList rawUserMessage childId = .error e ↔
      (e = .assertionError "Expected the assistant response branch to be linear" ∧
        WalkError (findChild rawUserMessage.children childId))) := by
  constructor
  · intro l
    exact ⟨walk_of_chainFromOpt_ok _ l, chainFromOpt_ok_of_walk⟩
  · intro e
    constructor
    · intro h
      have hw := walkError_of_chainFromOpt_error _ e h
      have := chainFromOpt_error_of_walkError hw
      rw [validateAndExtractLinkedList] at h
      rw [this] at h
      injection h with h
      exact ⟨h.symm, hw⟩
    · intro ⟨he, hw⟩
      rw [he]
      exact chainFromOpt_error_of_walkError hw

/-- C4: deleting a direct child X promotes X's children (appended after the
pre-existing ids, in their original relative order), removes X from
`childrenIds` and from the `children` mapping, and leaves the promoted
children's own subtrees intact (no recursive flattening), for either value of
the `recurse` flag. -/
theorem claim_C4_delete_promotes_children (n c : Supernode) (X : String) (r : Bool)
    (hmem : X ∈ n.childrenIds) (hfind : findChildS n.children X = some c)
    (hnotin : X ∉ c.childrenIds) :
    ∃ n', deleteChildMessageById n X r = .ok n' ∧
      n'.childrenIds = n.childrenIds.filter (fun cid => cid != X) ++ c.childrenIds ∧
      X ∉ n'.childrenIds ∧
      findChildS n'.children X = none ∧
      (∀ y ∈ c.childrenIds, findChildS n'.children y = findChildS c.children y) := by
  refine ⟨_, deleteChildMessageById_direct r hmem hfind, ?_, ?_, ?_, ?_⟩
  · rw [Supernode.withKids_childrenIds, List.filter_append]
    congr 1
    apply List.filter_eq_self.mpr
    intro y hy
    simp
    intro hEq
    exact hnotin (hEq ▸ hy)
  · rw [Supernode.withKids_childrenIds]
    intro hX
    have := (List.mem_filter.mp hX).2
    simp at this
  · rw [Supernode.withKids_children, deleteKey]
    exact findChildS_filter_self _ X
  · intro y hy
    rw [Supernode.withKids_children, deleteKey]
    have hyX : y ≠ X := fun hh => hnotin (hh ▸ hy)
    rw [findChildS_filter_ne _ hyX]
    exact findChildS_promote_mem c.children c.childrenIds n.children y hy

def wSubG : Supernode := .mk "G" "assistant" none none [] "" [] []

def wSubY : Supernode := .mk "Y" "user" none none [] "" [] []

def wSubZ : Supernode := .mk "Z" "user" none none [] "" ["G"] [("G", wSubG)]

def wSubX : Supernode :=
  .mk "X" "assistant" none none [] "" ["Y", "Z"] [("Y", wSubY), ("Z", wSubZ)]

def wSubW : Supernode := .mk "W" "user" none none [] "" [] []

def wSubRoot : Supernode :=
  .mk "R" "user" none none [] "" ["W", "X"] [("W", wSubW), ("X", wSubX)]

theorem claim_C4_delete_promotes_children_witness :
    ∃ n', deleteChildMessageById wSubRoot "X" false = .ok n' ∧
      n'.childrenIds =
        wSubRoot.childrenIds.filter (fun cid => cid != "X") ++ wSubX.childrenIds ∧
      "X" ∉ n'.childrenIds ∧
      findChildS n'.children "X" = none ∧
      (∀ y ∈ wSubX.childrenIds, findChildS n'.children y = findChildS wSubX.children y) :=
  claim_C4_delete_promotes_children wSubRoot wSubX "X" false
    (by simp [wSubRoot, Supernode.childrenIds])
    (by simp [wSubRoot, wSubX, Supernode.children, findChildS])
    (by simp [wSubX, Supernode.childrenIds])

/-- C8: `mergeSubsequentAssistantMessages` on a `dalle.text2im` tool node with
exactly one assistant-authored child appends the child's content parts, inherits
the child's author and metadata, and deletes the child (with `recurse = false`);
in either recognized case a child count other than one is a structural-assertion
failure; and any other author/recipient combination fails with the
unexpected-entry structural error. -/
theorem claim_C8_merge_semantics :
    (∀ (n am : Supernode) (cid : String),
      n.authorRole = "tool" → n.authorName = some "dalle.text2im" →
      n.childrenIds = [cid] → findChildS n.children cid = some am →
      am.authorRole = "assistant" → cid ∉ am.childrenIds →
      ∃ n', mergeSubsequentAssistantMessages n = .ok n' ∧
        n'.contentParts = n.contentParts ++ am.contentParts ∧
        n'.authorRole = am.authorRole ∧
        n'.authorName = am.authorName ∧
        n'.meta = am.meta ∧
        cid ∉ n'.childrenIds ∧
        findChildS n'.children cid = none) ∧
    (∀ n : Supernode, n.authorRole = "tool" → n.authorName = some "dalle.text2im" →
      n.childrenIds.length ≠ 1 →
      mergeSubsequentAssistantMessages n =
        .error (.assertionError "Expected the dalle message only has one child")) ∧
    (∀ n : Supernode, n.authorRole = "assistant" → n.recipient = some "python" →
      n.childrenIds.length ≠ 1 →
      mergeSubsequentAssistantMessages n =
        .error (.assertionError
          "Expected the child of the code block message to only have one child")) ∧
    (∀ n : Supernode,
      ¬(n.authorRole = "tool" ∧ n.authorName = some "dalle.text2im") →
      ¬(n.authorRole = "assistant" ∧ n.recipient = some "python") →
      mergeSubsequentAssistantMessages n =
        .error (.assertionError "Unexpected entry message for Assistant Message Merging")) := by
  refine ⟨?_, ?_, ?_, ?_⟩
  · intro n am cid h1 h2 h3 h4 h5 h6
    have hrole : (am.authorRole != "assistant") = false := by simp [h5]
    have hmem' : cid ∈ (n.withMerged (n.contentParts ++ am.contentParts)
        am.authorRole am.authorName am.meta).childrenIds := by
      rw [Supernode.withMerged_childrenIds, h3]
      simp
    have hfind' : findChildS (n.withMerged (n.contentParts ++ am.contentParts)
        am.authorRole am.authorName am.meta).children cid = some am := by
      rw [Supernode.withMerged_children]
      exact h4
    have hdel := deleteChildMessageById_direct false hmem' hfind'
    rw [mergeSubsequentAssistantMessages]
    simp only [h1, h2, h3, h4, hrole]
    norm_num
    rw [Supernode.withMerged_childrenIds, Supernode.withMerged_children, h3] at hdel
    rw [hdel]
    refine ⟨_, rfl, ?_, ?_, ?_, ?_, ?_, ?_⟩
    · rw [Supernode.withKids_contentParts, Supernode.withMerged_contentParts]
    · rw [Supernode.withKids_authorRole, Supernode.withMerged_authorRole]
    · rw [Supernode.withKids_authorName, Supernode.withMerged_authorName]
    · rw [Supernode.withKids_meta, Supernode.withMerged_meta]
    · rw [Supernode.withKids_childrenIds]
      intro hX
      have := (List.mem_filter.mp hX).2
      simp at this
    · rw [Supernode.withKids_children, deleteKey]
      exact findChildS_filter_self _ cid
  · intro n h1 h2 hlen
    rw [mergeSubsequentAssistantMessages]
    simp [h1, h2, hlen]
  · intro n h1 h2 hlen
    have hc1 : (n.authorRole == "tool" && n.authorName == some "dalle.text2im") = false := by
      simp [h1]
    rw [mergeSubsequentAssistantMessages]
    simp [hc1, h1, h2, hlen]
  · intro n hn1 hn2
    have hc1 : (n.authorRole == "tool" && n.authorName == some "dalle.text2im") = false := by
      by_cases e1 : n.authorRole = "tool"
      · by_cases e2 : n.authorName = some "dalle.text2im"
        · exact absurd ⟨e1, e2⟩ hn1
        · simp [e2]
      · simp [e1]
    have hc2 : (n.authorRole == "assistant" && n.recipient == some "python") = false := by
      by_cases e1 : n.authorRole = "assistant"
      · by_cases e2 : n.recipient = some "python"
        · exact absurd ⟨e1, e2⟩ hn2
        · simp [e2]
      · simp [e1]
    rw [mergeSubsequentAssistantMessages]
    simp [hc1, hc2]

def wMergeChild : Supernode :=
  .mk "c1" "assistant" (some "gpt") none [.str "an image caption"] "assistantMeta" [] []

def wMergeTool : Supernode :=
  .mk "t1" "tool" (some "dalle.text2im") none [.obj "file-service://img"] "toolMeta"
    ["c1"] [("c1", wMergeChild)]

theorem claim_C8_merge_semantics_witness :
    (∃ n', mergeSubsequentAssistantMessages wMergeTool = .ok n' ∧
      n'.contentParts = wMergeTool.contentParts ++ wMergeChild.contentParts ∧
      n'.authorRole = wMergeChild.authorRole ∧
      n'.authorName = wMergeChild.authorName ∧
      n'.meta = wMergeChild.meta ∧
      "c1" ∉ n'.childrenIds ∧
      findChildS n'.children "c1" = none) ∧
    mergeSubsequentAssistantMessages wSubRoot =
      .error (.assertionError "Unexpected entry message for Assistant Message Merging") := by
  constructor
  · exact claim_C8_merge_semantics.1 wMergeTool wMergeChild "c1"
      (by simp [wMergeTool, Supernode.authorRole])
      (by simp [wMergeTool, Supernode.authorName])
      (by simp [wMergeTool, Supernode.childrenIds])
      (by simp [wMergeTool, wMergeChild, Supernode.children, findChildS])
      (by simp [wMergeChild, Supernode.authorRole])
      (by simp [wMergeChild, Supernode.childrenIds])
  · exact claim_C8_merge_semantics.2.2.2 wSubRoot
      (by simp [wSubRoot, Supernode.authorRole])
      (by simp [wSubRoot, Supernode.authorRole])

/-- C6: `userMessageChunks` places every attachment-derived chunk before every
text-derived chunk; the attachment chunks preserve the source order of
`metadata.attachments` and the text chunks preserve the source order of the
string entries of `content.parts`. -/
theorem claim_C6_user_chunk_ordering (raw : RawNode) :
    ((loadUserMessage raw).take ((raw.attachments.getD []).length) =
      (raw.attachments.getD []).map mkAttachmentChunk) ∧
    ((loadUserMessage raw).drop ((raw.attachments.getD []).length) =
      ((raw.content.bind Content.parts).getD []).filterMap textChunkOfPart) ∧
    (∀ cp ∈ (loadUserMessage raw).take ((raw.attachments.getD []).length),
      cp.kind = "image" ∨ cp.kind = "file") ∧
    (∀ cp ∈ (loadUserMessage raw).drop ((raw.attachments.getD []).length),
      cp.kind = "text") := by
  have hload : loadUserMessage raw =
      (raw.attachments.getD []).map mkAttachmentChunk ++
        ((raw.content.bind Content.parts).getD []).filterMap textChunkOfPart := rfl
  have hlen : ((raw.attachments.getD []).map mkAttachmentChunk).length =
      (raw.attachments.getD []).length := List.length_map _ _
  refine ⟨?_, ?_, ?_, ?_⟩
  · rw [hload, ← hlen, List.take_left]
  · rw [hload, ← hlen, List.drop_left]
  · intro cp hcp
    rw [hload, ← hlen, List.take_left] at hcp
    obtain ⟨a, _, rfl⟩ := List.mem_map.mp hcp
    by_cases him : strIncludes a.mime_type "image"
    · left
      simp [mkAttachmentChunk, him]
    · right
      simp [mkAttachmentChunk, him]
  · intro cp hcp
    rw [hload, ← hlen, List.drop_left] at hcp
    obtain ⟨p, _, hcp'⟩ := List.mem_filterMap.mp hcp
    cases p with
    | str s =>
      simp [textChunkOfPart] at hcp'
      rw [← hcp']
    | obj a => simp [textChunkOfPart] at hcp'

def wC6 : RawNode :=
  .mk "u2" "user"
    (some ⟨"text", some [.str "hello", .obj "z", .str "bye"], none⟩)
    (some [⟨"att1", "image/png"⟩, ⟨"att2", "application/pdf"⟩]) none [] []

theorem claim_C6_user_chunk_ordering_witness :
    ((loadUserMessage wC6).take ((wC6.attachments.getD []).length) =
      (wC6.attachments.getD []).map mkAttachmentChunk) ∧
    ((loadUserMessage wC6).drop ((wC6.attachments.getD []).length) =
      ((wC6.content.bind Content.parts).getD []).filterMap textChunkOfPart) ∧
    (ContentPart.mk "file" (.str "att2") (some "application/pdf")).kind = "file" := by
  refine ⟨(claim_C6_user_chunk_ordering wC6).1, (claim_C6_user_chunk_ordering wC6).2.1, ?_⟩
  have h := (claim_C6_user_chunk_ordering wC6).2.2.1
    (ContentPart.mk "file" (.str "att2") (some "application/pdf"))
    (by simp [wC6, loadUserMessage, RawNode.attachments, RawNode.content,
      mkAttachmentChunk, strIncludes, isSubstrChars, textChunkOfPart])
  rcases h with h | h
  · simp at h
  · exact h

/-- C7: for a collected chain node with content type `execution_output`, chunk
conversion emits exactly one `code` ContentPart pairing
`metadata.aggregate_result.code` (default `""`) with the node's output text; for
a node whose content type is none of `text`, `multimodal_text` or
`execution_output`, conversion fails with the unrecognized-content-type error. -/
theorem claim_C7_execution_output_dispatch (m : RawNode) (c : Content)
    (hc : m.content = some c) :
    (c.content_type = "execution_output" →
      chunksOfRawMessage m =
        .ok [ContentPart.mk "code" (.codePair (m.aggregateCode.getD "") c.text) none]) ∧
    (c.content_type ≠ "text" → c.content_type ≠ "multimodal_text" →
      c.content_type ≠ "execution_output" →
      chunksOfRawMessage m = .error (.unexpectedContentType c.content_type)) := by
  constructor
  · intro h
    simp [chunksOfRawMessage, hc, h]
  · intro h1 h2 h3
    have b1 : (c.content_type == "text") = false := by simp [h1]
    have b2 : (c.content_type == "multimodal_text") = false := by simp [h2]
    have b3 : (c.content_type == "execution_output") = false := by simp [h3]
    simp [chunksOfRawMessage, hc, b1, b2, b3]

def wC7 : RawNode :=
  .mk "x" "tool" (some ⟨"execution_output", none, some "42"⟩) none (some "print(42)") [] []

def wC7bad : RawNode :=
  .mk "y" "assistant" (some ⟨"tether_browsing_display", none, none⟩) none none [] []

theorem claim_C7_execution_output_dispatch_witness :
    chunksOfRawMessage wC7 =
      .ok [ContentPart.mk "code" (.codePair "print(42)" (some "42")) none] ∧
    chunksOfRawMessage wC7bad =
      .error (.unexpectedContentType "tether_browsing_display") := by
  constructor
  · have h := (claim_C7_execution_output_dispatch wC7
      ⟨"execution_output", none, some "42"⟩ rfl).1 rfl
    simpa [wC7, RawNode.aggregateCode] using h
  · exact (claim_C7_execution_output_dispatch wC7bad
      ⟨"tether_browsing_display", none, none⟩ rfl).2
      (by decide) (by decide) (by decide)

/-- C9: human-content extraction is total over user nodes with missing fields: a
missing `content`, missing `content.parts` or missing `metadata.attachments` is
treated as an empty sequence, `userMessageChunks` is still produced (possibly
empty), and no error is raised or recorded by that extraction. -/
theorem claim_C9_missing_fields_total (raw : RawNode) :
    ((build raw).userMessageChunks = loadUserMessage raw) ∧
    (raw.content = none →
      loadUserMessage raw = (raw.attachments.getD []).map mkAttachmentChunk) ∧
    (∀ c, raw.content = some c → c.parts = none →
      loadUserMessage raw = (raw.attachments.getD []).map mkAttachmentChunk) ∧
    (raw.attachments = none →
      loadUserMessage raw =
        ((raw.content.bind Content.parts).getD []).filterMap textChunkOfPart) ∧
    (raw.content = none → raw.attachments = none → loadUserMessage raw = []) := by
  refine ⟨?_, ?_, ?_, ?_, ?_⟩
  · rcases h : mapBranches raw raw.childrenIds with e | ⟨bs, ls⟩
    · rw [build_eq_error h]
      rfl
    · rw [build_eq_ok h]
      rfl
  · intro h
    simp [loadUserMessage, h]
  · intro c hc hp
    simp [loadUserMessage, hc, hp]
  · intro h
    simp [loadUserMessage, h]
  · intro h1 h2
    simp [loadUserMessage, h1, h2]

def wC9 : RawNode := .mk "u" "user" none none none [] []

theorem claim_C9_missing_fields_total_witness :
    loadUserMessage wC9 = [] ∧ (build wC9).userMessageChunks = loadUserMessage wC9 :=
  ⟨(claim_C9_missing_fields_total wC9).2.2.2.2 rfl rfl,
    (claim_C9_missing_fields_total wC9).1⟩

def wC5A : RawNode :=
  .mk "a1" "assistant" (some ⟨"text", some [.str "4"], none⟩) none none [] []

def wC5User : RawNode := .mk "h1" "user" none none none ["a1"] [("a1", wC5A)]

theorem claim_C5_chain_extraction_characterization_witness :
    WalkResult (findChild wC5User.children "a1") [wC5A] :=
  ((claim_C5_chain_extraction_characterization wC5User "a1").1 [wC5A]).mp (by
    simp [validateAndExtractLinkedList, chainFromOpt, findChild, wC5User, wC5A,
      RawNode.children, RawNode.childrenIds, RawNode.isUserMessage, RawNode.authorRole])

/-- Number of chunks one collected chain node contributes on success, per the
content-type dispatch: one chunk per entry of `content.parts` for `text` and
`multimodal_text` nodes, exactly one chunk for `execution_output` nodes. -/
def nodeChunkCount (m : RawNode) : Nat :=
  match m.content with
  | none => 0
  | some c =>
    if c.content_type == "text" || c.content_type == "multimodal_text" then
      (c.parts.getD []).length
    else if c.content_type == "execution_output" then 1
    else 0

theorem chunksOfRawMessage_ok_length {m : RawNode} {cs : List ContentPart}
    (h : chunksOfRawMessage m = .ok cs) : cs.length = nodeChunkCount m := by
  rcases hc : m.content with _ | c
  · simp [chunksOfRawMessage, hc] at h
  · by_cases ht : (c.content_type == "text" || c.content_type == "multimodal_text") = true
    · rcases hp : c.parts with _ | ps
      · simp [chunksOfRawMessage, hc, ht, hp] at h
      · simp [chunksOfRawMessage, hc, ht, hp] at h
        subst h
        simp [nodeChunkCount, hc, ht, hp]
    · by_cases he : (c.content_type == "execution_output") = true
      · simp [chunksOfRawMessage, hc, ht, he] at h
        subst h
        simp [nodeChunkCount, hc, ht, he]
      · simp [chunksOfRawMessage, hc, ht, he] at h

theorem buildSingleAssistantMessage_length :
    ∀ (ms : List RawNode) (l : List ContentPart),
    buildSingleAssistantMessage ms = .ok l → l.length = (ms.map nodeChunkCount).sum := by
  intro ms
  induction ms with
  | nil =>
    intro l h
    simp [buildSingleAssistantMessage] at h
    subst h
    simp
  | cons m rest ih =>
    intro l h
    rw [buildSingleAssistantMessage, except_bind_eq_ok] at h
    obtain ⟨cs, hcs, h⟩ := h
    rw [except_bind_eq_ok] at h
    obtain ⟨csRest, hrest, h⟩ := h
    simp at h
    subst h
    simp [chunksOfRawMessage_ok_length hcs, ih csRest hrest]

theorem mapBranches_branches_length (raw : RawNode) :
    ∀ (ids : List String) (branches : List (List ContentPart))
      (leaves : List (Option RawNode)),
    mapBranches raw ids = .ok (branches, leaves) → branches.length = ids.length := by
  intro ids
  induction ids with
  | nil =>
    intro bs ls h
    simp [mapBranches] at h
    obtain ⟨rfl, _⟩ := h
    simp
  | cons cid rest ih =>
    intro bs ls h
    rw [mapBranches, except_bind_eq_ok] at h
    obtain ⟨chain, _, h⟩ := h
    rw [except_bind_eq_ok] at h
    obtain ⟨branch, _, h⟩ := h
    rw [except_bind_eq_ok] at h
    obtain ⟨⟨bs', ls'⟩, hrest, h⟩ := h
    simp at h
    obtain ⟨rfl, _⟩ := h
    simp [ih bs' ls' hrest]

/-- C3 (amended): for every chain, branch conversion yields exactly one branch
per outgoing child id, and the branch for a successfully converted chain contains
one chunk per part of each `text`/`multimodal_text` node plus one chunk per
`execution_output` node — so exactly N chunks for a chain of N nodes precisely
when every chain node contributes exactly one chunk. -/
theorem claim_C3_amended_chunk_count :
    (∀ (raw : RawNode) (ids : List String) (branches : List (List ContentPart))
      (leaves : List (Option RawNode)),
      mapBranches raw ids = .ok (branches, leaves) → branches.length = ids.length) ∧
    (∀ (ms : List RawNode) (l : List ContentPart),
      buildSingleAssistantMessage ms = .ok l →
      l.length = (ms.map nodeChunkCount).sum) ∧
    (∀ (ms : List RawNode) (l : List ContentPart),
      buildSingleAssistantMessage ms = .ok l →
      (∀ m ∈ ms, nodeChunkCount m = 1) → l.length = ms.length) := by
  refine ⟨mapBranches_branches_length, buildSingleAssistantMessage_length, ?_⟩
  have hsum : ∀ ms : List RawNode, (∀ m ∈ ms, nodeChunkCount m = 1) →
      (ms.map nodeChunkCount).sum = ms.length := by
    intro ms
    induction ms with
    | nil => intro _; simp
    | cons m rest ih =>
      intro hone
      have h1 := hone m (by simp)
      have h2 := ih (fun m' hm' => hone m' (by simp [hm']))
      simp [h1, h2]
      omega
  intro ms l h hone
  rw [buildSingleAssistantMessage_length ms l h]
  exact hsum ms hone

def c3A : RawNode :=
  .mk "a" "assistant" (some ⟨"text", some [.str "x", .str "y"], none⟩) none none [] []

theorem claim_C3_amended_chunk_count_witness :
    ([ContentPart.mk "text" (.str "x") none, ContentPart.mk "text" (.str "y") none].length =
      ([c3A].map nodeChunkCount).sum) ∧
    ([ContentPart.mk "code" (.codePair "print(42)" (some "42")) none].length = [wC7].length) := by
  constructor
  · exact claim_C3_amended_chunk_count.2.1 [c3A]
      [ContentPart.mk "text" (.str "x") none, ContentPart.mk "text" (.str "y") none]
      (by simp [buildSingleAssistantMessage, chunksOfRawMessage, c3A, RawNode.content,
        RawNode.aggregateCode, partToChunk, Bind.bind, Except.bind])
  · exact claim_C3_amended_chunk_count.2.2 [wC7]
      [ContentPart.mk "code" (.codePair "print(42)" (some "42")) none]
      (by simp [buildSingleAssistantMessage, chunksOfRawMessage, wC7, RawNode.content,
        RawNode.aggregateCode, Bind.bind, Except.bind])
      (by
        intro m hm
        simp at hm
        subst hm
        simp [nodeChunkCount, wC7, RawNode.content])

def c3H : RawNode := .mk "h" "user" none none none ["a"] [("a", c3A)]

/-- Refutes C3 as stated: a linear chain of N = 1 node whose `text` content has
two parts yields one branch of 2 chunks, not N = 1 chunks. -/
theorem claim_C3_counterexample :
    (∃ chain, validateAndExtractLinkedList c3H "a" = .ok chain ∧ chain.length = 1) ∧
    (∃ branch, (build c3H).assistantBranches = some [branch] ∧ branch.length = 2) := by
  constructor
  · refine ⟨[c3A], ?_, rfl⟩
    simp [validateAndExtractLinkedList, chainFromOpt, findChild, c3H, c3A,
      RawNode.children, RawNode.childrenIds, RawNode.isUserMessage, RawNode.authorRole]
  · refine ⟨[ContentPart.mk "text" (.str "x") none, ContentPart.mk "text" (.str "y") none],
      ?_, rfl⟩
    have h : mapBranches c3H c3H.childrenIds =
        .ok ([[ContentPart.mk "text" (.str "x") none, ContentPart.mk "text" (.str "y") none]],
          [some c3A]) := by
      simp [mapBranches, chainFromOpt, findChild, c3H, c3A, RawNode.children,
        RawNode.childrenIds, RawNode.isUserMessage, RawNode.authorRole,
        buildSingleAssistantMessage, chunksOfRawMessage, RawNode.content,
        RawNode.aggregateCode, partToChunk, Bind.bind, Except.bind]
    rw [build_eq_ok h]
    rfl

def c1H2 : RawNode := .mk "h2" "user" none none none [] []

def c1Bad : RawNode :=
  .mk "bad" "assistant" (some ⟨"text", some [.str "x"], none⟩) none none ["k1", "k2"] []

def c1A : RawNode :=
  .mk "a2" "assistant" (some ⟨"text", some [.str "ok"], none⟩) none none
    ["h2"] [("h2", c1H2)]

def c1Root : RawNode :=
  .mk "h1" "user" none none none ["bad", "a2"] [("bad", c1Bad), ("a2", c1A)]

/-- Refutes C1 as stated: the human turn `c1Root` has two outgoing branches; the
first is non-linear (a StructuralAssertionError) while the second is perfectly
well-formed, yet after construction no assistant branch at all is recorded and
no child supernode is built — the sibling branch is not converted or recursed
into. -/
theorem claim_C1_counterexample :
    validateAndExtractLinkedList c1Root "bad" =
      .error (.assertionError "Expected the assistant response branch to be linear") ∧
    validateAndExtractLinkedList c1Root "a2" = .ok [c1A] ∧
    (build c1Root).assistantBranches = none ∧
    (build c1Root).children = none ∧
    (build c1Root).loggedError =
      some (.assertionError "Expected the assistant response branch to be linear") := by
  have hmap : mapBranches c1Root c1Root.childrenIds =
      .error (.assertionError "Expected the assistant response branch to be linear") := by
    simp [mapBranches, chainFromOpt, findChild, c1Root, c1Bad, RawNode.children,
      RawNode.childrenIds, RawNode.isUserMessage, RawNode.authorRole,
      Bind.bind, Except.bind]
  refine ⟨?_, ?_, ?_, ?_, ?_⟩
  · simp [validateAndExtractLinkedList, chainFromOpt, findChild, c1Root, c1Bad,
      RawNode.children, RawNode.childrenIds, RawNode.isUserMessage, RawNode.authorRole]
  · simp [validateAndExtractLinkedList, chainFromOpt, findChild, c1Root, c1A, c1H2,
      RawNode.children, RawNode.childrenIds, RawNode.isUserMessage, RawNode.authorRole,
      Except.map]
  · rw [build_eq_error hmap]; rfl
  · rw [build_eq_error hmap]; rfl
  · rw [build_eq_error hmap]; rfl

/-- C1 (amended): a StructuralAssertionError raised while discovering or
converting any branch of a human turn is caught at that supernode's
construction: it aborts branch conversion and child construction for that whole
supernode (`assistantBranches` and `children` are left unassigned), the error is
only logged, and the user-message chunks survive; when branch mapping succeeds,
child supernodes are built by recursing unconditionally into every collected
leaf child, so failures logged inside one child's own construction do not stop
its siblings. -/
theorem claim_C1_amended_branch_error_scope :
    (∀ (raw : RawNode) (e : Err), mapBranches raw raw.childrenIds = .error e →
      (build raw).userMessageChunks = loadUserMessage raw ∧
      (build raw).assistantBranches = none ∧
      (build raw).children = none ∧
      (build raw).loggedError = some e) ∧
    (∀ (raw : RawNode) (branches : List (List ContentPart))
      (leaves : List (Option RawNode)),
      mapBranches raw raw.childrenIds = .ok (branches, leaves) →
      (build raw).assistantBranches = some branches ∧
      (build raw).children = some ((collectLeafChildren leaves).1.map build)) := by
  constructor
  · intro raw e h
    rw [build_eq_error h]
    exact ⟨rfl, rfl, rfl, rfl⟩
  · intro raw branches leaves h
    rw [build_eq_ok h]
    exact ⟨rfl, rfl⟩

theorem claim_C1_amended_branch_error_scope_witness :
    (build c1Root).userMessageChunks = loadUserMessage c1Root ∧
    (build c1Root).assistantBranches = none ∧
    (build c1Root).children = none ∧
    (build c1Root).loggedError =
      some (.assertionError "Expected the assistant response branch to be linear") :=
  claim_C1_amended_branch_error_scope.1 c1Root
    (.assertionError "Expected the assistant response branch to be linear")
    (by simp [mapBranches, chainFromOpt, findChild, c1Root, c1Bad, RawNode.children,
      RawNode.childrenIds, RawNode.isUserMessage, RawNode.authorRole,
      Bind.bind, Except.bind])

def c2H2 : RawNode := .mk "h2" "user" none none none [] []

def c2A : RawNode :=
  .mk "a" "assistant" (some ⟨"text", some [.str "hi"], none⟩) none none
    ["h2"] [("h2", c2H2)]

def c2H : RawNode := .mk "h1" "user" none none none ["a"] [("a", c2A)]

/-- C2 (code-bug evidence): the constructor never assigns `childrenIds` on the
node it builds — for every input the constructed supernode has no `childrenIds`
sequence — while it does populate `children`; at the concrete input `c2H` the
constructed node has one child entry and no `childrenIds`, so the claimed
pairing invariant cannot hold immediately after construction. -/
theorem claim_C2_constructor_never_pairs_childrenIds :
    (∀ raw : RawNode, (build raw).childrenIds = none) ∧
    ((build c2H).childrenIds = none ∧
      ∃ l, (build c2H).children = some l ∧ l.length = 1) := by
  have hall : ∀ raw : RawNode, (build raw).childrenIds = none := by
    intro raw
    rcases h : mapBranches raw raw.childrenIds with e | ⟨bs, ls⟩
    · rw [build_eq_error h]; rfl
    · rw [build_eq_ok h]; rfl
  refine ⟨hall, hall c2H, ?_⟩
  have hchain : chainFromOpt (findChild c2H.children "a") = .ok [c2A] := by
    simp [chainFromOpt, findChild, c2H, c2A, c2H2, RawNode.children, RawNode.childrenIds,
      RawNode.isUserMessage, RawNode.authorRole, Except.map]
  have hbuild : buildSingleAssistantMessage [c2A] =
      .ok [ContentPart.mk "text" (.str "hi") none] := by
    simp [buildSingleAssistantMessage, chunksOfRawMessage, c2A, RawNode.content,
      RawNode.aggregateCode, partToChunk, Bind.bind, Except.bind]
  have hids : c2H.childrenIds = ["a"] := rfl
  have h : mapBranches c2H c2H.childrenIds =
      .ok ([[ContentPart.mk "text" (.str "hi") none]], [some c2A]) := by
    rw [hids, mapBranches, hchain]
    simp only [Bind.bind, Except.bind]
    rw [hbuild]
    simp only [mapBranches]
    rfl
  rw [build_eq_ok h]
  refine ⟨[build c2H2], ?_, rfl⟩
  simp [collectLeafChildren, childrenOfOneLeaf, leafChildrenOf, c2A, c2H2, findChild,
    RawNode.childrenIds, RawNode.children, RawNode.isUserMessage, RawNode.authorRole,
    MergedMessage.children]

/-- C10: a dangling or human-turn outgoing child yields an empty extracted
chain; the leaf recorded for that branch is then the undefined last element of
the empty chain, on which the leaf aggregation raises a TypeError that abandons
the construction of child supernodes for the remaining leaves; the failure is
recorded via the logging collaborator (the constructor still returns a node)
rather than propagated. -/
theorem claim_C10_empty_chain_aborts_aggregation :
    (∀ o : Option RawNode, (o = none ∨ ∃ u, o = some u ∧ u.isUserMessage = true) →
      chainFromOpt o = .ok []) ∧
    (∀ (raw : RawNode) (cid : String) (ids : List String)
      (branches : List (List ContentPart)) (leaves : List (Option RawNode)),
      mapBranches raw (cid :: ids) = .ok (branches, leaves) →
      chainFromOpt (findChild raw.children cid) = .ok [] →
      ∃ ls, leaves = none :: ls) ∧
    (∀ ls, collectLeafChildren (none :: ls) =
      ([], some (.typeError "cannot read childrenIds of undefined"))) ∧
    (∀ (raw : RawNode) (branches : List (List ContentPart))
      (leaves : List (Option RawNode)) (e : Err),
      mapBranches raw raw.childrenIds = .ok (branches, leaves) →
      (collectLeafChildren leaves).2 = some e →
      (build raw).children = some ((collectLeafChildren leaves).1.map build) ∧
      (build raw).loggedError = some e) := by
  refine ⟨?_, ?_, ?_, ?_⟩
  · intro o h
    rcases h with rfl | ⟨u, rfl, hu⟩
    · simp [chainFromOpt]
    · simp [chainFromOpt, hu]
  · intro raw cid ids branches leaves h hchain
    rw [mapBranches, except_bind_eq_ok] at h
    obtain ⟨chain, hc, h⟩ := h
    rw [hchain] at hc
    injection hc with hc
    subst hc
    rw [except_bind_eq_ok] at h
    obtain ⟨branch, _, h⟩ := h
    rw [except_bind_eq_ok] at h
    obtain ⟨⟨bs', ls'⟩, _, h⟩ := h
    simp at h
    exact ⟨ls', h.2.symm⟩
  · intro ls
    rfl
  · intro raw branches leaves e h he
    rw [build_eq_ok h]
    exact ⟨rfl, he⟩

def c10U2 : RawNode := .mk "uu" "user" none none none [] []

def c10Root : RawNode := .mk "h" "user" none none none ["uu"] [("uu", c10U2)]

theorem claim_C10_empty_chain_aborts_aggregation_witness :
    chainFromOpt (findChild c10Root.children "uu") = .ok [] ∧
    (build c10Root).children = some [] ∧
    (build c10Root).loggedError = some (.typeError "cannot read childrenIds of undefined") := by
  have h1 := claim_C10_empty_chain_aborts_aggregation.1
    (findChild c10Root.children "uu")
    (Or.inr ⟨c10U2, by
      simp [c10Root, findChild, RawNode.children], rfl⟩)
  have hmap : mapBranches c10Root c10Root.childrenIds = .ok ([[]], [none]) := by
    simp [mapBranches, chainFromOpt, findChild, c10Root, c10U2, RawNode.children,
      RawNode.childrenIds, RawNode.isUserMessage, RawNode.authorRole,
      buildSingleAssistantMessage, Bind.bind, Except.bind]
  have h4 := claim_C10_empty_chain_aborts_aggregation.2.2.2 c10Root [[]] [none]
    (.typeError "cannot read childrenIds of undefined") hmap rfl
  refine ⟨h1, ?_, h4.2⟩
  have := h4.1
  simpa [collectLeafChildren] using this

end MergedMessageModel
